import Mathlib

/-!
# User / role service of `module_authorize` (`main.go`)

A shallow embedding of the HTTP handlers of `main.go` over an explicit model of
the relational store they talk to through GORM.

The store is modelled relationally, the way `db.AutoMigrate(&User{}, &Role{})`
lays it out: a `users` table, a `roles` table and the `user_roles` join table of
the `many2many:user_roles` relation, together with the two primary-key
sequences.  Every GORM call made by a handler is a definition of its own
(`countUsers`, `roleByName`, `createUser`, `deleteUserRow`, `firstUser`,
`preloadRoles`, `updatesUser`, `replaceRoles`), the handlers are then
transcribed line by line on top of them.
-/

namespace ModuleAuthorize

/-! ## Data model (`main.go` lines 17-37) -/

/-- Go struct `Role`: primary key `ID`, unique `Name`. -/
structure Role where
  ID : Nat
  Name : String
deriving DecidableEq, Repr

/-- Go struct `User` as it lives in memory and is serialised in responses:
the scalar columns together with the `Roles` slice of the many-to-many relation. -/
structure User where
  ID : Nat
  GitHubID : Int
  TelegramID : Int
  FullName : String
  GroupName : String
  Roles : List Role
deriving DecidableEq, Repr

/-- Go struct `UserRequest`: the JSON body of `POST /api/register` and
`PUT /api/user/:id`. -/
structure UserRequest where
  GitHubID : Int
  TelegramID : Int
  FullName : String
  GroupName : String
  Roles : List String
deriving DecidableEq, Repr

/-! ## The store -/

/-- One row of the `users` table (the scalar columns of `User`; the `Roles`
field is not a column, it lives in the join table). -/
structure UserRow where
  ID : Nat
  GitHubID : Int
  TelegramID : Int
  FullName : String
  GroupName : String
deriving DecidableEq, Repr

/-- Foreign keys of the `user_roles` join table.  GORM's `AutoMigrate` creates
them without an `ON DELETE` action (`noAction`); the two other settings are
kept so that every result below also covers a schema whose join table cascades
user deletion or carries no foreign key at all. -/
inductive JoinFK where
  | absent
  | noAction
  | cascade
deriving DecidableEq, Repr

/-- State of the relational store: the three tables in row order, the last
values handed out by the two primary-key sequences, and the foreign-key
setting of the join table (part of the schema, never changed by a handler). -/
structure DB where
  users : List UserRow
  roles : List Role
  userRoles : List (Nat × Nat)
  userSeq : Nat
  roleSeq : Nat
  joinFK : JoinFK
deriving DecidableEq, Repr

/-- Zero value of the Go struct `Role` (`var role Role`). -/
def zeroRole : Role := ⟨0, ""⟩

/-- Row written for a `User` value. -/
def User.toRow (u : User) (id : Nat) : UserRow :=
  ⟨id, u.GitHubID, u.TelegramID, u.FullName, u.GroupName⟩

/-- In-memory `User` scanned from a row, with the given `Roles` slice. -/
def UserRow.toUser (r : UserRow) (roles : List Role) : User :=
  ⟨r.ID, r.GitHubID, r.TelegramID, r.FullName, r.GroupName, roles⟩

/-! ## GORM calls used by the handlers -/

/-- Column names of the `users` table as `db.AutoMigrate(&User{})` creates it.
No field of `User` carries a `column:` tag, so GORM's default naming strategy
names the columns: common initialisms are title-cased (`ID` becomes `Id`) and
the result is snake-cased at every capital, which turns `GitHubID` into
`git_hub_id` (and `TelegramID` into `telegram_id`). -/
def usersColumns : List String :=
  ["id", "git_hub_id", "telegram_id", "full_name", "group_name"]

/-- Value of an integer column of a `users` row, looked up by column name;
`none` for a name that is not an integer column of the table. -/
def UserRow.intColumn (u : UserRow) (column : String) : Option Int :=
  if column = "id" then some (u.ID : Int)
  else if column = "git_hub_id" then some u.GitHubID
  else if column = "telegram_id" then some u.TelegramID
  else none

/-- The query `db.Model(&User{}).Where("github_id = ? OR telegram_id = ?", g, t).Count(&count)`
(line 111), for `var count int64`.  The raw condition is handed to the
database as written.  A column it names that the table does not have makes
the statement fail; the handler does not inspect the error of `Count`, so
`count` keeps its zero value.  The table has no column `github_id` (the
column of `GitHubID` is `git_hub_id`), so that is what happens for every
store and every pair of arguments (`countUsers_eq_zero`). -/
def countUsers (db : DB) (g t : Int) : Nat :=
  if "github_id" ∈ usersColumns ∧ "telegram_id" ∈ usersColumns then
    (db.users.filter
      (fun u => u.intColumn "github_id" = some g ∨ u.intColumn "telegram_id" = some t)).length
  else 0

/-- Row selected by `ORDER BY id LIMIT 1`: the row with the least primary key. -/
def firstByID (rows : List Role) : Option Role :=
  rows.foldl
    (fun acc r =>
      match acc with
      | none => some r
      | some a => if r.ID < a.ID then some r else some a)
    none

/-- The lookup `var role Role; db.Where("name = ?", name).First(&role)` (lines 125
and 163).  The error of `First` is not inspected by the handlers, so on a miss
the variable keeps its zero value. -/
def roleByName (db : DB) (name : String) : Role :=
  (firstByID (db.roles.filter (fun r => r.Name = name))).getD zeroRole

/-- The query `db.First(&user, id)`: `WHERE id = ? ORDER BY id LIMIT 1`.  The
argument is the Go `int` produced by `strconv.Atoi` (0 when the path
parameter is not a number); `none` stands for `ErrRecordNotFound`. -/
def firstUser (db : DB) (id : Int) : Option UserRow :=
  db.users.find? (fun u => (u.ID : Int) = id)

/-- What `Preload("Roles")` loads for the user with primary key `uid`: the rows
of `roles` whose id occurs in a `user_roles` row of that user, in the row order
of the `roles` table, each appended once per matching join row. -/
def preloadRoles (db : DB) (uid : Nat) : List Role :=
  (db.roles.map (fun r => List.replicate (db.userRoles.count (uid, r.ID)) r)).flatten

/-- One row of the `INSERT INTO roles ... ON CONFLICT DO NOTHING` that GORM
issues when it saves the `Roles` association.  An element with a zero primary
key takes the next value of the sequence (consumed whether or not the row is
kept); the row is dropped when its id or its unique name is already present;
a generated id is written back into the element when the row is inserted. -/
def upsertRole (tbl : List Role) (seq : Nat) (r : Role) : List Role × Nat × Role :=
  if r.ID = 0 then
    if tbl.any (fun x => x.ID = seq + 1 ∨ x.Name = r.Name) then (tbl, seq + 1, r)
    else (tbl ++ [⟨seq + 1, r.Name⟩], seq + 1, ⟨seq + 1, r.Name⟩)
  else
    if tbl.any (fun x => x.ID = r.ID ∨ x.Name = r.Name) then (tbl, seq, r)
    else (tbl ++ [r], seq, r)

/-- The whole multi-row upsert of the association's elements: resulting `roles`
table, resulting sequence value, and the elements with generated ids written
back. -/
def upsertRoles (tbl : List Role) (seq : Nat) : List Role → List Role × Nat × List Role
  | [] => (tbl, seq, [])
  | r :: rs =>
    let step := upsertRole tbl seq r
    let rest := upsertRoles step.1 step.2.1 rs
    (rest.1, rest.2.1, step.2.2 :: rest.2.2)

/-- The statement `INSERT INTO user_roles ... ON CONFLICT DO NOTHING`: a pair
already present (composite primary key) is skipped. -/
def insertJoins (tbl : List (Nat × Nat)) (uid : Nat) : List Nat → List (Nat × Nat)
  | [] => tbl
  | rid :: rids =>
    if (uid, rid) ∈ tbl then insertJoins tbl uid rids
    else insertJoins (tbl ++ [(uid, rid)]) uid rids

/-- Foreign-key check of the join rows `(uid, rid)` to be inserted: with foreign
keys in place the user and every role must exist. -/
def joinsAllowed (db : DB) (uid : Nat) (rids : List Nat) : Bool :=
  match db.joinFK with
  | JoinFK.absent => true
  | _ => rids.isEmpty ∨
      (db.users.any (fun u => u.ID = uid) ∧
        rids.all (fun rid => db.roles.any (fun r => r.ID = rid)))

/-- Result of saving the `Roles` association of one user. -/
structure SaveResult where
  db : DB
  roles : List Role
  ok : Bool
deriving DecidableEq, Repr

/-- GORM's save of the `Roles` association of user `uid` (callback
`SaveAfterAssociations`, run inside the statement's transaction): upsert the
elements, then insert the join rows.  When the join insert violates a foreign
key the transaction is rolled back: the tables are as before, only the
sequence keeps the values it handed out; the in-memory elements keep what was
written back. -/
def saveRoles (db : DB) (uid : Nat) (roles : List Role) : SaveResult :=
  let up := upsertRoles db.roles db.roleSeq roles
  let db1 : DB := { db with roles := up.1, roleSeq := up.2.1 }
  if joinsAllowed db1 uid (up.2.2.map Role.ID) then
    ⟨{ db1 with userRoles := insertJoins db1.userRoles uid (up.2.2.map Role.ID) }, up.2.2, true⟩
  else
    ⟨{ db with roleSeq := up.2.1 }, up.2.2, false⟩

/-- The call `db.Create(&user)` (line 128) for a `user` whose `ID` is zero: one
transaction that inserts the `users` row under the next sequence value and
saves the `Roles` association.  The insert fails on a primary-key clash or on
one of the two `unique` columns; any failure rolls the tables back (sequence
values stay consumed) and is reported as `none`. -/
def createUser (db : DB) (u : User) : DB × Option User :=
  let id := db.userSeq + 1
  if db.users.any
      (fun x => x.ID = id ∨ x.GitHubID = u.GitHubID ∨ x.TelegramID = u.TelegramID) then
    ({ db with userSeq := id }, none)
  else
    let db1 : DB := { db with users := db.users ++ [u.toRow id], userSeq := id }
    let saved := saveRoles db1 id u.Roles
    if saved.ok then (saved.db, some { u with ID := id, Roles := saved.roles })
    else ({ db with userSeq := id, roleSeq := saved.db.roleSeq }, none)

/-- The call `db.Delete(&User{}, id)` (line 138): `DELETE FROM users WHERE id = ?`.
Deleting zero rows is not an error in GORM (`Error` stays `nil`, only
`RowsAffected` is 0).  The statement fails (`none`) only when a `noAction`
foreign key of the join table still references a row to be deleted; a
`cascade` foreign key removes those join rows with the user. -/
def deleteUserRow (db : DB) (id : Int) : Option DB :=
  let hit : Bool := db.users.any (fun u => (u.ID : Int) = id)
  let referenced : Bool := db.userRoles.any (fun j => (j.1 : Int) = id)
  let rest := db.users.filter (fun u => ¬ (u.ID : Int) = id)
  match db.joinFK with
  | JoinFK.noAction => if hit ∧ referenced then none else some { db with users := rest }
  | JoinFK.cascade =>
      some { db with
        users := rest
        userRoles :=
          if hit then db.userRoles.filter (fun j => ¬ (j.1 : Int) = id) else db.userRoles }
  | JoinFK.absent => some { db with users := rest }

/-- Value a struct `Updates` leaves in a text column: GORM builds the `SET`
clause from the non-zero fields of the struct only, so an empty string keeps
the stored value. -/
def updatedText (old new : String) : String :=
  if new = "" then old else new

/-- The call `db.Model(&user).Updates(User{FullName: f, GroupName: g})` (lines
185-188) for the user with primary key `uid`: `UPDATE users SET ... WHERE id = uid`
over the non-zero fields of the struct. -/
def updatesUser (db : DB) (uid : Nat) (fullName groupName : String) : DB :=
  { db with
    users := db.users.map (fun u =>
      if u.ID = uid then
        { u with FullName := updatedText u.FullName fullName
                 GroupName := updatedText u.GroupName groupName }
      else u) }

/-- The call `db.Model(&user).Association("Roles").Replace(newRoles)` (line 167)
for the user with primary key `uid`: save the new elements and their join rows,
then delete the join rows of the user whose role id is not among the non-zero
ids of the new elements.  When saving fails `Replace` returns before the
delete.  The second component is the `Roles` slice left in the in-memory
`user`. -/
def replaceRoles (db : DB) (uid : Nat) (newRoles : List Role) : DB × List Role :=
  let saved := saveRoles db uid newRoles
  if saved.ok then
    let keep := (saved.roles.map Role.ID).filter (fun rid => rid ≠ 0)
    ({ saved.db with
        userRoles := saved.db.userRoles.filter (fun j => ¬ (j.1 = uid ∧ j.2 ∉ keep)) },
      saved.roles)
  else (saved.db, saved.roles)

/-! ## Start-up (`main`, lines 42-56) -/

/-- The call `db.FirstOrCreate(&role, Role{Name: name})` of the seeding loop. -/
def firstOrCreateRole (db : DB) (name : String) : DB :=
  if db.roles.any (fun r => r.Name = name) then db
  else { db with roles := db.roles ++ [⟨db.roleSeq + 1, name⟩], roleSeq := db.roleSeq + 1 }

/-- Seeding loop over `[]string{"student", "teacher", "admin"}`. -/
def seedRoles (db : DB) : DB :=
  ["student", "teacher", "admin"].foldl firstOrCreateRole db

/-- Freshly migrated store: empty tables, sequences not yet used. -/
def emptyDB (fk : JoinFK) : DB := ⟨[], [], [], 0, 0, fk⟩

/-- The store as `main` leaves it on a fresh database before serving. -/
def seededStore (fk : JoinFK) : DB := seedRoles (emptyDB fk)

/-! ## HTTP side -/

/-- Body written by `c.JSON` / `c.AbortWithStatusJSON` / `c.Status`. -/
inductive Body where
  | error (msg : String)
  | user (u : User)
  | roles (names : List String)
  | empty
deriving DecidableEq, Repr

/-- HTTP response: status code and body. -/
structure Response where
  status : Nat
  body : Body
deriving DecidableEq, Repr

/-- Handler `registerUser` (lines 104-134).  `req = none` stands for a body
that `ShouldBindJSON` rejects; the text of the 400 body (`err.Error()`) is
kept as a fixed string here and in the other handlers. -/
def registerUser (db : DB) (req : Option UserRequest) : Response × DB :=
  match req with
  | none => (⟨400, Body.error "bad request"⟩, db)
  | some req =>
    if countUsers db req.GitHubID req.TelegramID > 0 then
      (⟨409, Body.error "User already exists"⟩, db)
    else
      let user : User := ⟨0, req.GitHubID, req.TelegramID, req.FullName, req.GroupName, []⟩
      let studentRole := roleByName db "student"
      let user := { user with Roles := user.Roles ++ [studentRole] }
      match createUser db user with
      | (db1, none) => (⟨500, Body.error "Failed to create user"⟩, db1)
      | (db1, some created) => (⟨201, Body.user created⟩, db1)

/-- Handler `deleteUser` (lines 136-143). -/
def deleteUser (db : DB) (id : Int) : Response × DB :=
  match deleteUserRow db id with
  | none => (⟨404, Body.error "User not found"⟩, db)
  | some db1 => (⟨204, Body.empty⟩, db1)

/-- Handler `updateUserRoles` (lines 145-169).  `req = none` stands for a body
that `ShouldBindJSON` rejects, `some names` for the bound `Roles` field. -/
def updateUserRoles (db : DB) (id : Int) (req : Option (List String)) : Response × DB :=
  match req with
  | none => (⟨400, Body.error "bad request"⟩, db)
  | some names =>
    match firstUser db id with
    | none => (⟨404, Body.error "User not found"⟩, db)
    | some row =>
      let newRoles := names.map (roleByName db)
      let replaced := replaceRoles db row.ID newRoles
      (⟨200, Body.user (row.toUser replaced.2)⟩, replaced.1)

/-- Handler `updateUserInfo` (lines 171-191).  The response carries the
in-memory `user`: the fetched row with the updated fields assigned, `Roles`
not loaded. -/
def updateUserInfo (db : DB) (id : Int) (req : Option UserRequest) : Response × DB :=
  match req with
  | none => (⟨400, Body.error "bad request"⟩, db)
  | some req =>
    match firstUser db id with
    | none => (⟨404, Body.error "User not found"⟩, db)
    | some row =>
      let db1 := updatesUser db row.ID req.FullName req.GroupName
      let user : User :=
        ⟨row.ID, row.GitHubID, row.TelegramID,
          updatedText row.FullName req.FullName, updatedText row.GroupName req.GroupName, []⟩
      (⟨200, Body.user user⟩, db1)

/-- Handler `getUser` (lines 193-201). -/
def getUser (db : DB) (id : Int) : Response × DB :=
  match firstUser db id with
  | none => (⟨404, Body.error "User not found"⟩, db)
  | some row => (⟨200, Body.user (row.toUser (preloadRoles db row.ID))⟩, db)

/-- Handler `getUserRoles` (lines 203-217). -/
def getUserRoles (db : DB) (id : Int) : Response × DB :=
  match firstUser db id with
  | none => (⟨404, Body.error "User not found"⟩, db)
  | some row => (⟨200, Body.roles ((preloadRoles db row.ID).map Role.Name)⟩, db)

/-- The six routes registered on the `/api` group (lines 65-70), each with the
data its handler reads from the request. -/
inductive Endpoint where
  | register (req : Option UserRequest)
  | deleteUser (id : Int)
  | updateUserRoles (id : Int) (req : Option (List String))
  | updateUserInfo (id : Int) (req : Option UserRequest)
  | getUser (id : Int)
  | getUserRoles (id : Int)
deriving DecidableEq, Repr

/-- Handler the router dispatches an endpoint to. -/
def Endpoint.handler : Endpoint → DB → Response × DB
  | Endpoint.register req => fun db => registerUser db req
  | Endpoint.deleteUser id => fun db => ModuleAuthorize.deleteUser db id
  | Endpoint.updateUserRoles id req => fun db => ModuleAuthorize.updateUserRoles db id req
  | Endpoint.updateUserInfo id req => fun db => ModuleAuthorize.updateUserInfo db id req
  | Endpoint.getUser id => fun db => ModuleAuthorize.getUser db id
  | Endpoint.getUserRoles id => fun db => ModuleAuthorize.getUserRoles db id

/-- What a request through the `/api` group amounts to: the response, the
store afterwards, and whether the endpoint's handler was run. -/
structure Outcome where
  response : Response
  db : DB
  handlerRan : Bool
deriving DecidableEq, Repr

/-- Middleware `authMiddleware` (lines 94-101).  `providedKey` is
`c.GetHeader("X-API-Key")` (the empty string when the header is absent),
`next` the rest of the handler chain run by `c.Next()`. -/
def authMiddleware (apiKey providedKey : String) (next : DB → Response × DB) (db : DB) :
    Outcome :=
  if providedKey ≠ apiKey then
    ⟨⟨401, Body.error "Invalid API key"⟩, db, false⟩
  else
    let r := next db
    ⟨r.1, r.2, true⟩

/-- A request to one of the routes of `r.Group("/api", authMiddleware)`. -/
def serve (apiKey : String) (db : DB) (providedKey : String) (e : Endpoint) : Outcome :=
  authMiddleware apiKey providedKey e.handler db

/-! ## Example stores -/

/-- The seeded store (GORM's default foreign keys) after
`POST /api/register` with `github_id` 111, `telegram_id` 0, `full_name` "Alice",
`group_name` "G1". -/
def aliceStore : DB :=
  (registerUser (seededStore JoinFK.noAction) (some ⟨111, 0, "Alice", "G1", []⟩)).2

/-! ## Store invariants and reachable states -/

/-- Constraints the schema and the sequences maintain on a store: primary keys
of `users` and the user ids of join rows have been handed out by the user
sequence, role ids are distinct and non-zero, and the join table holds each
`(user, role)` pair once (composite primary key). -/
structure DB.WF (db : DB) : Prop where
  userIDs : ∀ u ∈ db.users, u.ID ≤ db.userSeq
  joinUsers : ∀ j ∈ db.userRoles, j.1 ≤ db.userSeq
  roleIDs : (db.roles.map Role.ID).Nodup
  roleNonzero : ∀ r ∈ db.roles, r.ID ≠ 0
  joins : db.userRoles.Nodup

/-- Invariant of the `roles` table: distinct, non-zero primary keys. -/
def RolesOK (tbl : List Role) : Prop :=
  (tbl.map Role.ID).Nodup ∧ ∀ x ∈ tbl, x.ID ≠ 0

theorem firstByID_foldl_mem (rows : List Role) (acc : Option Role) (r : Role)
    (h : rows.foldl
      (fun acc r =>
        match acc with
        | none => some r
        | some a => if r.ID < a.ID then some r else some a) acc = some r) :
    r ∈ rows ∨ acc = some r := by
  induction rows generalizing acc with
  | nil => right; simpa using h
  | cons x xs ih =>
    simp only [List.foldl_cons] at h
    rcases ih _ h with h1 | h1
    · left; exact List.mem_cons_of_mem _ h1
    · cases acc with
      | none =>
        simp only [Option.some.injEq] at h1
        left; rw [h1]; exact List.mem_cons_self _ _
      | some a =>
        by_cases hlt : x.ID < a.ID
        · simp only [hlt, if_true, Option.some.injEq] at h1
          left; rw [h1]; exact List.mem_cons_self _ _
        · simp only [hlt, if_false] at h1
          right; exact h1

theorem firstByID_foldl_isSome (rows : List Role) (a : Role) :
    ∃ r, rows.foldl
      (fun acc r =>
        match acc with
        | none => some r
        | some a => if r.ID < a.ID then some r else some a) (some a) = some r := by
  induction rows generalizing a with
  | nil => exact ⟨a, rfl⟩
  | cons x xs ih =>
    simp only [List.foldl_cons]
    by_cases hlt : x.ID < a.ID
    · simp only [hlt, if_true]; exact ih x
    · simp only [hlt, if_false]; exact ih a

theorem firstByID_mem (rows : List Role) (r : Role) (h : firstByID rows = some r) : r ∈ rows := by
  rcases firstByID_foldl_mem rows none r h with h1 | h1
  · exact h1
  · cases h1

theorem firstByID_of_ne_nil (rows : List Role) (h : rows ≠ []) :
    ∃ r, firstByID rows = some r := by
  cases rows with
  | nil => exact absurd rfl h
  | cons x xs =>
    unfold firstByID
    simp only [List.foldl_cons]
    exact firstByID_foldl_isSome xs x

/-- A name carried by some row of `roles` resolves to a row of `roles` with that name. -/
theorem roleByName_hit (db : DB) (name : String) (h : ∃ r ∈ db.roles, r.Name = name) :
    roleByName db name ∈ db.roles ∧ (roleByName db name).Name = name := by
  obtain ⟨r, hr, hn⟩ := h
  have hne : db.roles.filter (fun r => r.Name = name) ≠ [] := by
    intro hnil
    have : r ∈ db.roles.filter (fun r => r.Name = name) := by
      simp [List.mem_filter, hr, hn]
    rw [hnil] at this
    cases this
  obtain ⟨f, hf⟩ := firstByID_of_ne_nil _ hne
  have hmem := firstByID_mem _ _ hf
  simp only [List.mem_filter, decide_eq_true_eq] at hmem
  unfold roleByName
  rw [hf]
  exact hmem

/-- A name carried by no row of `roles` resolves to the zero-value `Role`. -/
theorem roleByName_miss (db : DB) (name : String) (h : ∀ r ∈ db.roles, r.Name ≠ name) :
    roleByName db name = zeroRole := by
  have hnil : db.roles.filter (fun r => r.Name = name) = [] := by
    simp only [List.filter_eq_nil_iff, decide_eq_true_eq]
    exact h
  unfold roleByName
  rw [hnil]
  rfl

theorem firstUser_mem (db : DB) (id : Int) (row : UserRow) (h : firstUser db id = some row) :
    row ∈ db.users ∧ (row.ID : Int) = id := by
  unfold firstUser at h
  refine ⟨List.mem_of_find?_eq_some h, ?_⟩
  have := List.find?_some h
  simpa using this

theorem firstUser_none (db : DB) (id : Int) (h : ∀ u ∈ db.users, (u.ID : Int) ≠ id) :
    firstUser db id = none := by
  unfold firstUser
  simp only [List.find?_eq_none, decide_eq_true_eq]
  exact h


/-- The count query names a column the `users` table does not have, so the
handler always sees a zero count. -/
theorem countUsers_eq_zero (db : DB) (g t : Int) : countUsers db g t = 0 := by
  unfold countUsers
  rw [if_neg (by decide)]

/-- Deleting an id that no row carries succeeds and changes nothing:
`db.Delete` reports no error for zero affected rows. -/
theorem deleteUserRow_missing (db : DB) (id : Int) (h : ∀ u ∈ db.users, (u.ID : Int) ≠ id) :
    deleteUserRow db id = some db := by
  have hhit : db.users.any (fun u => decide ((u.ID : Int) = id)) = false := by
    simp only [List.any_eq_false, decide_eq_true_eq]
    exact h
  have hrest : db.users.filter (fun u => decide (¬ (u.ID : Int) = id)) = db.users := by
    simp only [List.filter_eq_self, decide_eq_true_eq]
    exact h
  unfold deleteUserRow
  simp only [hhit, hrest]
  cases db with
  | mk users roles userRoles userSeq roleSeq joinFK =>
    cases joinFK <;> simp

theorem find?_map_keep {α : Type} (p : α → Bool) (f : α → α) (l : List α)
    (hf : ∀ a, p (f a) = p a) : (l.map f).find? p = (l.find? p).map f := by
  induction l with
  | nil => rfl
  | cons a l ih =>
    simp only [List.map_cons, List.find?_cons, hf a]
    cases p a
    · simpa using ih
    · rfl

/-! ### The roles upsert -/

theorem rolesOK_append (tbl : List Role) (r : Role) (h : RolesOK tbl) (hr : r.ID ≠ 0)
    (hfresh : ∀ x ∈ tbl, x.ID ≠ r.ID) : RolesOK (tbl ++ [r]) := by
  refine ⟨?_, ?_⟩
  · rw [List.map_append, List.nodup_append]
    refine ⟨h.1, by simp, ?_⟩
    intro a ha hb
    simp only [List.map_cons, List.map_nil, List.mem_singleton] at hb
    rw [List.mem_map] at ha
    obtain ⟨x, hx, hxa⟩ := ha
    exact hfresh x hx (hxa.trans hb)
  · intro x hx
    rw [List.mem_append, List.mem_singleton] at hx
    rcases hx with hx | hx
    · exact h.2 x hx
    · rw [hx]; exact hr

theorem upsertRole_ok (tbl : List Role) (seq : Nat) (r : Role) (h : RolesOK tbl) :
    RolesOK (upsertRole tbl seq r).1 := by
  unfold upsertRole
  by_cases hz : r.ID = 0
  · simp only [hz, if_true]
    by_cases hc : tbl.any (fun x => decide (x.ID = seq + 1 ∨ x.Name = r.Name)) = true
    · simp only [hc, if_true]; exact h
    · simp only [hc]
      apply rolesOK_append tbl _ h (Nat.succ_ne_zero seq)
      intro x hx hid
      apply hc
      rw [List.any_eq_true]
      exact ⟨x, hx, by simp [show x.ID = seq + 1 from hid]⟩
  · simp only [hz, if_false]
    by_cases hc : tbl.any (fun x => decide (x.ID = r.ID ∨ x.Name = r.Name)) = true
    · simp only [hc, if_true]; exact h
    · simp only [hc]
      apply rolesOK_append tbl _ h hz
      intro x hx hid
      apply hc
      rw [List.any_eq_true]
      exact ⟨x, hx, by simp [hid]⟩

theorem upsertRoles_ok (rs : List Role) (tbl : List Role) (seq : Nat) (h : RolesOK tbl) :
    RolesOK (upsertRoles tbl seq rs).1 := by
  induction rs generalizing tbl seq with
  | nil => exact h
  | cons r rs ih =>
    simp only [upsertRoles]
    exact ih _ _ (upsertRole_ok tbl seq r h)

/-- Elements that are rows of the table with a non-zero key are left alone by
the upsert, and so is the table. -/
theorem upsertRoles_existing (rs : List Role) (tbl : List Role) (seq : Nat)
    (h : ∀ r ∈ rs, r ∈ tbl ∧ r.ID ≠ 0) : upsertRoles tbl seq rs = (tbl, seq, rs) := by
  induction rs with
  | nil => rfl
  | cons r rs ih =>
    have hr := h r (List.mem_cons_self _ _)
    have hstep : upsertRole tbl seq r = (tbl, seq, r) := by
      unfold upsertRole
      have hc : tbl.any (fun x => decide (x.ID = r.ID ∨ x.Name = r.Name)) = true := by
        rw [List.any_eq_true]
        exact ⟨r, hr.1, by simp⟩
      simp only [hr.2, if_false, hc, if_true]
    simp only [upsertRoles, hstep]
    rw [ih (fun x hx => h x (List.mem_cons_of_mem _ hx))]

/-! ### The join-row insert -/

theorem insertJoins_nodup (rids : List Nat) (tbl : List (Nat × Nat)) (uid : Nat)
    (h : tbl.Nodup) : (insertJoins tbl uid rids).Nodup := by
  induction rids generalizing tbl with
  | nil => exact h
  | cons rid rids ih =>
    simp only [insertJoins]
    by_cases hm : (uid, rid) ∈ tbl
    · simp only [hm, if_true]; exact ih tbl h
    · simp only [hm, if_false]
      apply ih
      rw [List.nodup_append]
      refine ⟨h, by simp, ?_⟩
      intro a ha hb
      rw [List.mem_singleton] at hb
      rw [hb] at ha
      exact hm ha

theorem mem_insertJoins (rids : List Nat) (tbl : List (Nat × Nat)) (uid : Nat) (j : Nat × Nat) :
    j ∈ insertJoins tbl uid rids ↔ j ∈ tbl ∨ (j.1 = uid ∧ j.2 ∈ rids) := by
  induction rids generalizing tbl with
  | nil => simp [insertJoins]
  | cons rid rids ih =>
    simp only [insertJoins]
    by_cases hm : (uid, rid) ∈ tbl
    · simp only [hm, if_true, ih, List.mem_cons]
      constructor
      · rintro (h | ⟨h1, h2⟩)
        · exact Or.inl h
        · exact Or.inr ⟨h1, Or.inr h2⟩
      · rintro (h | ⟨h1, h2 | h2⟩)
        · exact Or.inl h
        · left
          have : j = (uid, rid) := Prod.ext h1 h2
          rw [this]; exact hm
        · exact Or.inr ⟨h1, h2⟩
    · simp only [hm, if_false, ih, List.mem_append, List.mem_cons, List.not_mem_nil, or_false]
      constructor
      · rintro ((h | h) | ⟨h1, h2⟩)
        · exact Or.inl h
        · right; rw [h]; exact ⟨rfl, Or.inl rfl⟩
        · exact Or.inr ⟨h1, Or.inr h2⟩
      · rintro (h | ⟨h1, h2 | h2⟩)
        · exact Or.inl (Or.inl h)
        · exact Or.inl (Or.inr (Prod.ext h1 h2))
        · exact Or.inr ⟨h1, h2⟩

/-! ### Preload -/

theorem count_pair_of_nodup (l : List (Nat × Nat)) (a : Nat × Nat) (h : l.Nodup) :
    l.count a = if a ∈ l then 1 else 0 := by
  induction l with
  | nil => simp
  | cons x xs ih =>
    rw [List.nodup_cons] at h
    rw [List.count_cons, ih h.2]
    by_cases hx : x = a
    · subst hx
      simp [h.1]
    · have hx2 : ¬ a = x := fun e => hx e.symm
      simp [hx, hx2]

/-- With each join pair stored once, `Preload("Roles")` returns the rows of
`roles` linked to the user, each once, in table order. -/
theorem preloadRoles_eq_filter (db : DB) (uid : Nat) (h : db.userRoles.Nodup) :
    preloadRoles db uid = db.roles.filter (fun r => decide ((uid, r.ID) ∈ db.userRoles)) := by
  unfold preloadRoles
  induction db.roles with
  | nil => rfl
  | cons r rs ih =>
    simp only [List.map_cons, List.flatten_cons, ih, List.filter_cons]
    by_cases hm : (uid, r.ID) ∈ db.userRoles
    · rw [count_pair_of_nodup _ _ h]
      simp [hm, List.replicate]
    · rw [count_pair_of_nodup _ _ h]
      simp [hm, List.replicate]

theorem mem_preloadRoles (db : DB) (uid : Nat) (h : db.userRoles.Nodup) (r : Role) :
    r ∈ preloadRoles db uid ↔ r ∈ db.roles ∧ (uid, r.ID) ∈ db.userRoles := by
  rw [preloadRoles_eq_filter db uid h]
  simp [List.mem_filter]

theorem preloadRoles_nodup (db : DB) (uid : Nat) (h : db.WF) : (preloadRoles db uid).Nodup := by
  rw [preloadRoles_eq_filter db uid h.joins]
  exact (List.Nodup.of_map _ h.roleIDs).filter _

/-! ### The invariants are kept by every store operation -/

theorem saveRoles_frame (db : DB) (uid : Nat) (roles : List Role) :
    (saveRoles db uid roles).db.users = db.users ∧
    (saveRoles db uid roles).db.userSeq = db.userSeq ∧
    (saveRoles db uid roles).db.joinFK = db.joinFK := by
  unfold saveRoles
  dsimp only
  split <;> exact ⟨rfl, rfl, rfl⟩

theorem saveRoles_wf (db : DB) (uid : Nat) (roles : List Role) (h : db.WF)
    (huid : uid ≤ db.userSeq) : (saveRoles db uid roles).db.WF := by
  have hok := upsertRoles_ok roles db.roles db.roleSeq ⟨h.roleIDs, h.roleNonzero⟩
  unfold saveRoles
  dsimp only
  split
  · refine ⟨h.userIDs, ?_, hok.1, hok.2, insertJoins_nodup _ _ _ h.joins⟩
    intro j hj
    rw [mem_insertJoins] at hj
    rcases hj with hj | ⟨hj, _⟩
    · exact h.joinUsers j hj
    · rw [hj]; exact huid
  · exact ⟨h.userIDs, h.joinUsers, h.roleIDs, h.roleNonzero, h.joins⟩

theorem wf_bump_userSeq (db : DB) (h : db.WF) (n : Nat) (hn : db.userSeq ≤ n) (m : Nat) :
    DB.WF { db with userSeq := n, roleSeq := m } :=
  ⟨fun u hu => le_trans (h.userIDs u hu) hn, fun j hj => le_trans (h.joinUsers j hj) hn,
    h.roleIDs, h.roleNonzero, h.joins⟩

theorem createUser_wf (db : DB) (u : User) (h : db.WF) : (createUser db u).1.WF := by
  unfold createUser
  dsimp only
  split
  · exact wf_bump_userSeq db h _ (Nat.le_succ _) db.roleSeq
  · have h1 : DB.WF { db with users := db.users ++ [u.toRow (db.userSeq + 1)],
                               userSeq := db.userSeq + 1 } := by
      refine ⟨?_, fun j hj => le_trans (h.joinUsers j hj) (Nat.le_succ _),
        h.roleIDs, h.roleNonzero, h.joins⟩
      intro x hx
      rw [List.mem_append, List.mem_singleton] at hx
      rcases hx with hx | hx
      · exact le_trans (h.userIDs x hx) (Nat.le_succ _)
      · rw [hx]; exact le_refl _
    split
    · exact saveRoles_wf _ _ _ h1 (le_refl _)
    · exact wf_bump_userSeq db h _ (Nat.le_succ _) _

theorem replaceRoles_wf (db : DB) (uid : Nat) (roles : List Role) (h : db.WF)
    (huid : uid ≤ db.userSeq) : (replaceRoles db uid roles).1.WF := by
  have hs := saveRoles_wf db uid roles h huid
  unfold replaceRoles
  dsimp only
  split
  · exact ⟨hs.userIDs, fun j hj => hs.joinUsers j (List.mem_of_mem_filter hj),
      hs.roleIDs, hs.roleNonzero, hs.joins.filter _⟩
  · exact hs

theorem registerUser_wf (db : DB) (req : Option UserRequest) (h : db.WF) :
    (registerUser db req).2.WF := by
  cases req with
  | none => exact h
  | some req =>
    unfold registerUser
    dsimp only
    split
    · exact h
    · have hc := createUser_wf db
        ⟨0, req.GitHubID, req.TelegramID, req.FullName, req.GroupName,
          [] ++ [roleByName db "student"]⟩ h
      split
      · rename_i db1 heq
        rw [heq] at hc; exact hc
      · rename_i db1 created heq
        rw [heq] at hc; exact hc

theorem seededStore_wf (fk : JoinFK) : (seededStore fk).WF := by
  refine ⟨?_, ?_, ?_, ?_, ?_⟩ <;> simp [seededStore, seedRoles, emptyDB, firstOrCreateRole]

theorem filter_id_eq_singleton (tbl : List Role) (s : Role) (hn : (tbl.map Role.ID).Nodup)
    (hs : s ∈ tbl) : tbl.filter (fun r => decide (r.ID = s.ID)) = [s] := by
  induction tbl with
  | nil => cases hs
  | cons x xs ih =>
    rw [List.map_cons, List.nodup_cons] at hn
    rw [List.mem_cons] at hs
    rcases hs with hs | hs
    · subst hs
      have hnil : xs.filter (fun r => decide (r.ID = s.ID)) = [] := by
        simp only [List.filter_eq_nil_iff, decide_eq_true_eq]
        intro a ha hid
        exact hn.1 (hid ▸ List.mem_map_of_mem Role.ID ha)
      simp [List.filter_cons, hnil]
    · have hne : x.ID ≠ s.ID := by
        intro hid
        exact hn.1 (hid ▸ List.mem_map_of_mem Role.ID hs)
      simp [List.filter_cons, hne, ih hn.2 hs]

/-- Saving an association whose elements are all rows of `roles` for an
existing user: no role is written, the join rows are inserted. -/
theorem saveRoles_existing (db : DB) (uid : Nat) (roles : List Role) (hwf : db.WF)
    (hu : ∃ u ∈ db.users, u.ID = uid) (hr : ∀ r ∈ roles, r ∈ db.roles) :
    saveRoles db uid roles
      = ⟨{ db with userRoles := insertJoins db.userRoles uid (roles.map Role.ID) },
          roles, true⟩ := by
  have hup : upsertRoles db.roles db.roleSeq roles = (db.roles, db.roleSeq, roles) :=
    upsertRoles_existing roles db.roles db.roleSeq
      (fun r h => ⟨hr r h, hwf.roleNonzero r (hr r h)⟩)
  have hallow : joinsAllowed db uid (roles.map Role.ID) = true := by
    obtain ⟨u, hum, hid⟩ := hu
    have h1 : db.users.any (fun u => decide (u.ID = uid)) = true := by
      rw [List.any_eq_true]; exact ⟨u, hum, by simp [hid]⟩
    have h2 : (roles.map Role.ID).all (fun rid => db.roles.any (fun r => decide (r.ID = rid)))
        = true := by
      rw [List.all_eq_true]
      intro rid hrid
      rw [List.mem_map] at hrid
      obtain ⟨r, hrm, hrr⟩ := hrid
      rw [List.any_eq_true]
      exact ⟨r, hr r hrm, by simp [hrr]⟩
    unfold joinsAllowed
    cases db.joinFK <;> simp [h1, h2]
  unfold saveRoles
  simp only [hup]
  cases db with
  | mk users roles0 userRoles userSeq roleSeq joinFK =>
    simp only at hallow ⊢
    rw [if_pos hallow]

/-- The store and the in-memory user that `db.Create(&user)` produces for a
user whose only role is a stored role and whose two unique columns are free. -/
theorem createUser_fresh (db : DB) (u : User) (s : Role) (hwf : db.WF) (hs : s ∈ db.roles)
    (hroles : u.Roles = [s])
    (hfree : ∀ x ∈ db.users, x.GitHubID ≠ u.GitHubID ∧ x.TelegramID ≠ u.TelegramID) :
    createUser db u =
      ({ db with
          users := db.users ++ [u.toRow (db.userSeq + 1)]
          userRoles := db.userRoles ++ [(db.userSeq + 1, s.ID)]
          userSeq := db.userSeq + 1 },
        some { u with ID := db.userSeq + 1, Roles := [s] }) := by
  have hany : db.users.any (fun x => decide (x.ID = db.userSeq + 1 ∨ x.GitHubID = u.GitHubID ∨
      x.TelegramID = u.TelegramID)) = false := by
    simp only [List.any_eq_false, decide_eq_true_eq, not_or]
    intro x hx
    refine ⟨?_, (hfree x hx).1, (hfree x hx).2⟩
    have := hwf.userIDs x hx
    omega
  have hwf1 : DB.WF { db with users := db.users ++ [u.toRow (db.userSeq + 1)],
                               userSeq := db.userSeq + 1 } := by
    refine ⟨?_, fun j hj => le_trans (hwf.joinUsers j hj) (Nat.le_succ _),
      hwf.roleIDs, hwf.roleNonzero, hwf.joins⟩
    intro x hx
    rw [List.mem_append, List.mem_singleton] at hx
    rcases hx with hx | hx
    · exact le_trans (hwf.userIDs x hx) (Nat.le_succ _)
    · rw [hx]; exact le_refl _
  have hsave := saveRoles_existing
    { db with users := db.users ++ [u.toRow (db.userSeq + 1)], userSeq := db.userSeq + 1 }
    (db.userSeq + 1) [s] hwf1
    ⟨u.toRow (db.userSeq + 1), by simp, rfl⟩
    (fun r hr => by rw [List.mem_singleton] at hr; rw [hr]; exact hs)
  have hnot : (db.userSeq + 1, s.ID) ∉ db.userRoles := by
    intro hm
    have := hwf.joinUsers _ hm
    simp at this
  unfold createUser
  simp only [hany, hroles, hsave]
  simp [insertJoins, hnot]

/-- Reading back the user created by `createUser_fresh`. -/
theorem getUser_fresh (db : DB) (u : User) (s : Role) (hwf : db.WF) (hs : s ∈ db.roles) :
    firstUser
        { db with
          users := db.users ++ [u.toRow (db.userSeq + 1)]
          userRoles := db.userRoles ++ [(db.userSeq + 1, s.ID)]
          userSeq := db.userSeq + 1 } ((db.userSeq + 1 : Nat) : Int)
      = some (u.toRow (db.userSeq + 1)) ∧
    preloadRoles
        { db with
          users := db.users ++ [u.toRow (db.userSeq + 1)]
          userRoles := db.userRoles ++ [(db.userSeq + 1, s.ID)]
          userSeq := db.userSeq + 1 } (db.userSeq + 1)
      = [s] := by
  have hnot : (db.userSeq + 1, s.ID) ∉ db.userRoles := by
    intro hm
    have := hwf.joinUsers _ hm
    simp at this
  constructor
  · unfold firstUser
    have hnone : db.users.find? (fun x => decide ((x.ID : Int) = ((db.userSeq + 1 : Nat) : Int)))
        = none := by
      simp only [List.find?_eq_none, decide_eq_true_eq]
      intro x hx hid
      have := hwf.userIDs x hx
      have hid2 : x.ID = db.userSeq + 1 := by exact_mod_cast hid
      omega
    simp only [List.find?_append, hnone, Option.none_or]
    simp [List.find?_cons, User.toRow]
  · rw [preloadRoles_eq_filter]
    · dsimp only
      rw [← filter_id_eq_singleton db.roles s hwf.roleIDs hs]
      apply List.filter_congr
      intro r hr
      simp only [List.mem_append, List.mem_singleton, Prod.mk.injEq, true_and]
      have hno : (db.userSeq + 1, r.ID) ∉ db.userRoles := by
        intro hm
        have := hwf.joinUsers _ hm
        simp at this
      simp [hno]
    · dsimp only
      rw [List.nodup_append]
      refine ⟨hwf.joins, by simp, ?_⟩
      intro a ha hb
      rw [List.mem_singleton] at hb
      rw [hb] at ha
      exact hnot ha

/-- What `registerUser` does for a request whose two ids belong to no stored
user, on a store that holds a `student` role. -/
theorem registerUser_fresh (db : DB) (req : UserRequest) (hwf : db.WF)
    (hstudent : ∃ r ∈ db.roles, r.Name = "student")
    (hfree : ∀ x ∈ db.users,
      x.GitHubID ≠ req.GitHubID ∧ x.TelegramID ≠ req.TelegramID) :
    registerUser db (some req) =
      (⟨201, Body.user ⟨db.userSeq + 1, req.GitHubID, req.TelegramID, req.FullName,
          req.GroupName, [roleByName db "student"]⟩⟩,
        { db with
          users := db.users ++
            [⟨db.userSeq + 1, req.GitHubID, req.TelegramID, req.FullName, req.GroupName⟩]
          userRoles := db.userRoles ++ [(db.userSeq + 1, (roleByName db "student").ID)]
          userSeq := db.userSeq + 1 }) := by
  have hs := (roleByName_hit db "student" hstudent).1
  have hcreate := createUser_fresh db
    ⟨0, req.GitHubID, req.TelegramID, req.FullName, req.GroupName, [roleByName db "student"]⟩
    (roleByName db "student") hwf hs rfl hfree
  unfold registerUser
  simp only [countUsers_eq_zero, gt_iff_lt, lt_irrefl, if_false, List.nil_append, hcreate]
  rfl

/-- The insert of `db.Create(&user)` fails when a stored row already has the
value of one of the two `unique` columns: no row is written, only the
sequence value is consumed. -/
theorem createUser_taken (db : DB) (u : User)
    (h : ∃ x ∈ db.users, x.GitHubID = u.GitHubID ∨ x.TelegramID = u.TelegramID) :
    createUser db u = ({ db with userSeq := db.userSeq + 1 }, none) := by
  obtain ⟨x, hx, hdup⟩ := h
  have hany : db.users.any (fun x => decide (x.ID = db.userSeq + 1 ∨
      x.GitHubID = u.GitHubID ∨ x.TelegramID = u.TelegramID)) = true := by
    rw [List.any_eq_true]
    exact ⟨x, hx, by simp [hdup]⟩
  unfold createUser
  simp only [hany, if_true]

/-- What `registerUser` does for a request one of whose two ids is that of a
stored user: the count query does not stop it, the insert fails on the unique
column and the handler answers 500. -/
theorem registerUser_taken (db : DB) (req : UserRequest)
    (h : ∃ x ∈ db.users, x.GitHubID = req.GitHubID ∨ x.TelegramID = req.TelegramID) :
    registerUser db (some req) =
      (⟨500, Body.error "Failed to create user"⟩, { db with userSeq := db.userSeq + 1 }) := by
  have hcreate := createUser_taken db
    ⟨0, req.GitHubID, req.TelegramID, req.FullName, req.GroupName, [roleByName db "student"]⟩ h
  unfold registerUser
  simp only [countUsers_eq_zero, gt_iff_lt, lt_irrefl, if_false, List.nil_append, hcreate]

/-- The 409 branch of `registerUser` is never taken. -/
theorem registerUser_status_ne_409 (db : DB) (req : Option UserRequest) :
    (registerUser db req).1.status ≠ 409 := by
  cases req with
  | none => simp [registerUser]
  | some req =>
    unfold registerUser
    simp only [countUsers_eq_zero, gt_iff_lt, lt_irrefl, if_false]
    split <;> simp

theorem firstUser_of_mem (db : DB) (id : Int) (h : ∃ u ∈ db.users, (u.ID : Int) = id) :
    ∃ row, firstUser db id = some row := by
  obtain ⟨u, hu, hid⟩ := h
  cases hf : firstUser db id with
  | some row => exact ⟨row, rfl⟩
  | none =>
    unfold firstUser at hf
    simp only [List.find?_eq_none, decide_eq_true_eq] at hf
    exact absurd hid (hf u hu)

/-! ### Update roles with names that all resolve -/

/-- The store `Replace` leaves when every new element is a row of `roles`. -/
theorem replaceRoles_existing (db : DB) (uid : Nat) (roles : List Role) (hwf : db.WF)
    (hu : ∃ u ∈ db.users, u.ID = uid) (hr : ∀ r ∈ roles, r ∈ db.roles) :
    replaceRoles db uid roles =
      ({ db with
          userRoles := (insertJoins db.userRoles uid (roles.map Role.ID)).filter
            (fun j => decide (¬ (j.1 = uid ∧
              j.2 ∉ (roles.map Role.ID).filter (fun rid => decide (rid ≠ 0))))) },
        roles) := by
  unfold replaceRoles
  simp only [saveRoles_existing db uid roles hwf hu hr, if_true]

theorem mem_preload_after_replace (db : DB) (uid : Nat) (roles : List Role) (hwf : db.WF)
    (hu : ∃ u ∈ db.users, u.ID = uid) (hr : ∀ r ∈ roles, r ∈ db.roles) (r : Role) :
    r ∈ preloadRoles (replaceRoles db uid roles).1 uid ↔ r ∈ roles := by
  have hwf2 := replaceRoles_wf db uid roles hwf
    (by obtain ⟨u, hum, hid⟩ := hu; rw [← hid]; exact hwf.userIDs u hum)
  rw [mem_preloadRoles _ _ hwf2.joins]
  rw [replaceRoles_existing db uid roles hwf hu hr]
  dsimp only
  rw [List.mem_filter, mem_insertJoins, decide_eq_true_eq]
  have hkey : (r.ID ∈ (roles.map Role.ID).filter (fun rid => decide (rid ≠ 0))) ↔
      (∃ a ∈ roles, a.ID = r.ID) ∧ r.ID ≠ 0 := by
    rw [List.mem_filter, List.mem_map, decide_eq_true_eq]
  constructor
  · rintro ⟨hrm, _, hkeep⟩
    have hk : r.ID ∈ (roles.map Role.ID).filter (fun rid => decide (rid ≠ 0)) := by
      by_contra hnot
      exact hkeep ⟨rfl, hnot⟩
    obtain ⟨⟨r2, hr2, hid⟩, _⟩ := hkey.1 hk
    have : r2 = r := List.inj_on_of_nodup_map hwf.roleIDs (hr r2 hr2) hrm hid
    rw [← this]; exact hr2
  · intro hin
    refine ⟨hr r hin, Or.inr ⟨rfl, List.mem_map_of_mem Role.ID hin⟩, ?_⟩
    rintro ⟨_, hnot⟩
    exact hnot (hkey.2 ⟨⟨r, hin, rfl⟩, hwf.roleNonzero r (hr r hin)⟩)

/-! ## Access gate -/

/-- C1: for every configured secret, store and request to any of the six `/api`
endpoints, an `X-API-Key` value different from the configured secret makes
`authMiddleware` answer 401 without running the rest of the chain (whatever
handler that is), so the endpoint's handler is not run and the store is
unchanged. -/
theorem authMiddleware_rejects_wrong_key (apiKey : String) (db : DB) (providedKey : String)
    (e : Endpoint) (h : providedKey ≠ apiKey) :
    (∀ next : DB → Response × DB,
      authMiddleware apiKey providedKey next db
        = ⟨⟨401, Body.error "Invalid API key"⟩, db, false⟩) ∧
    serve apiKey db providedKey e = ⟨⟨401, Body.error "Invalid API key"⟩, db, false⟩ := by
  have key : ∀ next : DB → Response × DB,
      authMiddleware apiKey providedKey next db
        = ⟨⟨401, Body.error "Invalid API key"⟩, db, false⟩ := by
    intro next
    unfold authMiddleware
    rw [if_pos h]
  exact ⟨key, key _⟩

theorem authMiddleware_rejects_wrong_key_witness :
    "wrong" ≠ "secret" ∧
    ((∀ next : DB → Response × DB,
      authMiddleware "secret" "wrong" next aliceStore
        = ⟨⟨401, Body.error "Invalid API key"⟩, aliceStore, false⟩) ∧
    serve "secret" aliceStore "wrong" (Endpoint.deleteUser 1)
      = ⟨⟨401, Body.error "Invalid API key"⟩, aliceStore, false⟩) :=
  ⟨by decide,
    authMiddleware_rejects_wrong_key "secret" aliceStore "wrong" (Endpoint.deleteUser 1) (by decide)⟩

/-! ## Register: duplicate check -/

/-- C2, the code at the failing input: on the store holding Alice (github id
111) a register request with the non-zero github id 111 is not answered 409.
The count query of line 111 fails on its column `github_id`, the count stays
zero, the request goes on to `db.Create`, which fails on the unique column,
and the answer is 500; the three tables are as before. -/
theorem registerUser_duplicate_answers_500 :
    ((111 : Int) ≠ 0 ∧ ∃ u ∈ aliceStore.users, u.GitHubID = 111) ∧
    countUsers aliceStore 111 7 = 0 ∧
    registerUser aliceStore (some ⟨111, 7, "Alice again", "G2", ["admin"]⟩)
      = (⟨500, Body.error "Failed to create user"⟩, { aliceStore with userSeq := 2 }) ∧
    (registerUser aliceStore (some ⟨111, 7, "Alice again", "G2", ["admin"]⟩)).1.status ≠ 409 := by
  decide

/-- C8 as stated fails: after registering (github 111, telegram 0), a request
(github 222, telegram 0), whose github id belongs to no stored user and whose
telegram id is zero, does not create a second user: the zero telegram id
counts as a duplicate of the stored zero (unique column), the insert fails
and one user remains. -/
theorem registerUser_zero_id_not_created :
    (∀ u ∈ aliceStore.users, u.GitHubID ≠ 222) ∧
    registerUser aliceStore (some ⟨222, 0, "Bob", "G1", []⟩)
      = (⟨500, Body.error "Failed to create user"⟩, { aliceStore with userSeq := 2 }) ∧
    (registerUser aliceStore (some ⟨222, 0, "Bob", "G1", []⟩)).2.users = aliceStore.users ∧
    aliceStore.users.length = 1 := by
  decide

/-- C8 amended: zero is a value like any other and counts as a duplicate.
When no stored user has the request's `github_id` and none has its
`telegram_id`, zero included, `registerUser` does not fail with Conflict, and
on a store that satisfies its schema constraints and holds a `student` role
it answers 201 and appends the user's row; when some stored user has the
request's `github_id` or its `telegram_id`, zero included, no user is
created. -/
theorem registerUser_zero_is_a_value (db : DB) (req : UserRequest) :
    ((∀ x ∈ db.users, x.GitHubID ≠ req.GitHubID ∧ x.TelegramID ≠ req.TelegramID) →
      (registerUser db (some req)).1.status ≠ 409 ∧
      (db.WF → (∃ r ∈ db.roles, r.Name = "student") →
        (registerUser db (some req)).1.status = 201 ∧
        (registerUser db (some req)).2.users =
          db.users ++
            [⟨db.userSeq + 1, req.GitHubID, req.TelegramID, req.FullName, req.GroupName⟩])) ∧
    ((∃ x ∈ db.users, x.GitHubID = req.GitHubID ∨ x.TelegramID = req.TelegramID) →
      (registerUser db (some req)).1.status ≠ 201 ∧
      (registerUser db (some req)).2.users = db.users) := by
  constructor
  · intro hfree
    refine ⟨registerUser_status_ne_409 db (some req), ?_⟩
    intro hwf hstudent
    rw [registerUser_fresh db req hwf hstudent hfree]
    exact ⟨rfl, rfl⟩
  · intro hdup
    rw [registerUser_taken db req hdup]
    exact ⟨by simp, rfl⟩

theorem registerUser_zero_is_a_value_witness :
    (∀ x ∈ aliceStore.users, x.GitHubID ≠ 222 ∧ x.TelegramID ≠ 5) ∧
    (∃ x ∈ aliceStore.users, x.GitHubID = 222 ∨ x.TelegramID = 0) ∧
    ((registerUser aliceStore (some ⟨222, 5, "Bob", "G1", []⟩)).1.status = 201 ∧
      (registerUser aliceStore (some ⟨222, 5, "Bob", "G1", []⟩)).2.users =
        aliceStore.users ++ [⟨aliceStore.userSeq + 1, 222, 5, "Bob", "G1"⟩]) ∧
    ((registerUser aliceStore (some ⟨222, 0, "Bob", "G1", []⟩)).1.status ≠ 201 ∧
      (registerUser aliceStore (some ⟨222, 0, "Bob", "G1", []⟩)).2.users = aliceStore.users) :=
  ⟨by decide, ⟨⟨1, 111, 0, "Alice", "G1"⟩, by decide, Or.inr rfl⟩,
    ((registerUser_zero_is_a_value aliceStore ⟨222, 5, "Bob", "G1", []⟩).1 (by decide)).2
      (registerUser_wf _ _ (seededStore_wf JoinFK.noAction)) ⟨⟨1, "student"⟩, by decide, rfl⟩,
    (registerUser_zero_is_a_value aliceStore ⟨222, 0, "Bob", "G1", []⟩).2
      ⟨⟨1, 111, 0, "Alice", "G1"⟩, by decide, Or.inr rfl⟩⟩

/-! ## Delete -/

/-- C4, the code at the failing input: `DELETE /api/user/999` on the seeded
store, where no user has id 999, is answered 204 No Content, not 404; the
store is unchanged. -/
theorem deleteUser_missing_answers_204 :
    firstUser (seededStore JoinFK.noAction) 999 = none ∧
    deleteUser (seededStore JoinFK.noAction) 999
      = (⟨204, Body.empty⟩, seededStore JoinFK.noAction) := by
  decide

/-! ## Update info -/

/-- C6: whatever the id and the payload (bound or rejected, with or without
`github_id`, `telegram_id`, `roles`), `updateUserInfo` leaves the `users` rows
with the same ids, `GitHubID`s and `TelegramID`s, in the same order, leaves
the `roles` and `user_roles` tables untouched, and so leaves the role set
loaded for every user as it was. -/
theorem updateUserInfo_frame (db : DB) (id : Int) (req : Option UserRequest) :
    (updateUserInfo db id req).2.users.map (fun u => (u.ID, u.GitHubID, u.TelegramID))
      = db.users.map (fun u => (u.ID, u.GitHubID, u.TelegramID)) ∧
    (updateUserInfo db id req).2.roles = db.roles ∧
    (updateUserInfo db id req).2.userRoles = db.userRoles ∧
    ∀ uid, preloadRoles (updateUserInfo db id req).2 uid = preloadRoles db uid := by
  cases req with
  | none => exact ⟨rfl, rfl, rfl, fun _ => rfl⟩
  | some req =>
    unfold updateUserInfo
    cases hrow : firstUser db id with
    | none => exact ⟨rfl, rfl, rfl, fun _ => rfl⟩
    | some row =>
      refine ⟨?_, rfl, rfl, fun _ => rfl⟩
      simp only [updatesUser, List.map_map]
      apply List.map_congr_left
      intro u _
      by_cases hu : u.ID = row.ID <;> simp [hu]

/-- C7 as stated fails: Alice's row updated with an empty `full_name` and
`group_name` "G2" keeps the stored full name "Alice" (only the group name is
overwritten). -/
theorem updateUserInfo_empty_keeps_old :
    firstUser aliceStore 1 = some ⟨1, 111, 0, "Alice", "G1"⟩ ∧
    firstUser (updateUserInfo aliceStore 1 (some ⟨0, 0, "", "G2", []⟩)).2 1
      = some ⟨1, 111, 0, "Alice", "G2"⟩ ∧
    ("Alice" : String) ≠ "" := by
  decide

/-- C7 amended: for every existing user and every update-info request, after
`updateUserInfo` the stored full name is the request's `full_name` when that
is non-empty and the previous full name when it is empty or omitted, and
likewise for the group name; the other columns of the row are as before. -/
theorem updateUserInfo_overwrites_nonempty (db : DB) (id : Int) (req : UserRequest)
    (row : UserRow) (h : firstUser db id = some row) :
    firstUser (updateUserInfo db id (some req)).2 id
      = some ⟨row.ID, row.GitHubID, row.TelegramID,
          if req.FullName = "" then row.FullName else req.FullName,
          if req.GroupName = "" then row.GroupName else req.GroupName⟩ := by
  have hid := (firstUser_mem db id row h).2
  unfold updateUserInfo
  simp only [h]
  unfold firstUser at h ⊢
  simp only [updatesUser]
  rw [find?_map_keep]
  · rw [h]
    simp [updatedText]
  · intro a
    by_cases ha : a.ID = row.ID <;> simp [ha]

theorem updateUserInfo_overwrites_nonempty_witness :
    firstUser aliceStore 1 = some ⟨1, 111, 0, "Alice", "G1"⟩ ∧
    firstUser (updateUserInfo aliceStore 1 (some ⟨5, 6, "Alice B", "", ["admin"]⟩)).2 1
      = some ⟨1, 111, 0, "Alice B", "G1"⟩ :=
  ⟨by decide,
    updateUserInfo_overwrites_nonempty aliceStore 1 ⟨5, 6, "Alice B", "", ["admin"]⟩
      ⟨1, 111, 0, "Alice", "G1"⟩ (by decide)⟩

/-! ## Register: creation -/

/-- C5 as stated fails: Alice holds `[student]`; updated with `["ghost"]`, a
name the by-name lookup resolves to the zero-value `Role`, she does not end up
with the zero-value `Role`: saving the association inserts a new `roles` row
with the empty name under the fresh id 4, and that row is her role, in the
response and in the store. -/
theorem updateUserRoles_miss_creates_role :
    firstUser aliceStore 1 = some ⟨1, 111, 0, "Alice", "G1"⟩ ∧
    preloadRoles aliceStore 1 = [⟨1, "student"⟩] ∧
    ["ghost"].map (roleByName aliceStore) = [zeroRole] ∧
    (updateUserRoles aliceStore 1 (some ["ghost"])).1
      = ⟨200, Body.user ⟨1, 111, 0, "Alice", "G1", [⟨4, ""⟩]⟩⟩ ∧
    preloadRoles (updateUserRoles aliceStore 1 (some ["ghost"])).2 1 = [⟨4, ""⟩] ∧
    (updateUserRoles aliceStore 1 (some ["ghost"])).2.roles
      = aliceStore.roles ++ [⟨4, ""⟩] ∧
    ([⟨4, ""⟩] : List Role) ≠ [zeroRole] := by
  decide

/-- C5 amended: for every existing user, whatever roles they held, and every
list of role names each of which is the name of a stored role,
`updateUserRoles` answers 200 with the user carrying the resolved list in
input order, writes no role, and leaves the user's stored role set with
exactly the roles of the resolved list as members, each once: a previously
held role survives only if it is in that list. -/
theorem updateUserRoles_replaces (db : DB) (id : Int) (names : List String) (row : UserRow)
    (hwf : db.WF) (hrow : firstUser db id = some row)
    (hnames : ∀ n ∈ names, ∃ r ∈ db.roles, r.Name = n) :
    (updateUserRoles db id (some names)).1
      = ⟨200, Body.user (row.toUser (names.map (roleByName db)))⟩ ∧
    (updateUserRoles db id (some names)).2.roles = db.roles ∧
    (∀ r, r ∈ preloadRoles (updateUserRoles db id (some names)).2 row.ID ↔
      r ∈ names.map (roleByName db)) ∧
    (preloadRoles (updateUserRoles db id (some names)).2 row.ID).Nodup := by
  have hu : ∃ u ∈ db.users, u.ID = row.ID := ⟨row, (firstUser_mem db id row hrow).1, rfl⟩
  have hr : ∀ r ∈ names.map (roleByName db), r ∈ db.roles := by
    intro r hrm
    rw [List.mem_map] at hrm
    obtain ⟨n, hn, hrn⟩ := hrm
    rw [← hrn]
    exact (roleByName_hit db n (hnames n hn)).1
  have hrun : updateUserRoles db id (some names)
      = (⟨200, Body.user (row.toUser (replaceRoles db row.ID (names.map (roleByName db))).2)⟩,
          (replaceRoles db row.ID (names.map (roleByName db))).1) := by
    unfold updateUserRoles
    simp only [hrow]
  rw [hrun]
  refine ⟨?_, ?_, ?_, ?_⟩
  · rw [replaceRoles_existing db row.ID _ hwf hu hr]
  · rw [replaceRoles_existing db row.ID _ hwf hu hr]
  · intro r
    exact mem_preload_after_replace db row.ID _ hwf hu hr r
  · exact preloadRoles_nodup _ _
      (replaceRoles_wf db row.ID _ hwf (hwf.userIDs row (firstUser_mem db id row hrow).1))

theorem updateUserRoles_replaces_witness :
    aliceStore.WF ∧
    firstUser aliceStore 1 = some ⟨1, 111, 0, "Alice", "G1"⟩ ∧
    (∀ n ∈ ["teacher", "admin"], ∃ r ∈ aliceStore.roles, r.Name = n) ∧
    ((updateUserRoles aliceStore 1 (some ["teacher", "admin"])).1
      = ⟨200, Body.user ((⟨1, 111, 0, "Alice", "G1"⟩ : UserRow).toUser
          (["teacher", "admin"].map (roleByName aliceStore)))⟩ ∧
    (updateUserRoles aliceStore 1 (some ["teacher", "admin"])).2.roles = aliceStore.roles ∧
    (∀ r, r ∈ preloadRoles (updateUserRoles aliceStore 1 (some ["teacher", "admin"])).2 1 ↔
      r ∈ ["teacher", "admin"].map (roleByName aliceStore)) ∧
    (preloadRoles (updateUserRoles aliceStore 1 (some ["teacher", "admin"])).2 1).Nodup) :=
  ⟨registerUser_wf _ _ (seededStore_wf JoinFK.noAction), by decide, by decide,
    updateUserRoles_replaces aliceStore 1 ["teacher", "admin"] ⟨1, 111, 0, "Alice", "G1"⟩
      (registerUser_wf _ _ (seededStore_wf JoinFK.noAction)) (by decide) (by decide)⟩

/-! ## Role membership is a set -/

/-- C10: `getUserRoles` never changes the store; it answers 404 Not-Found when
no user has the id; when a user has the id it answers 200 with the names of
the roles that the store loads for that user (the role list `getUser`
returns), one name per role, in the same order and of the same length; and
right after a registration answered 201 on a store that satisfies its schema
constraints and holds a `student` role, the answer for the new user is
`["student"]`. -/
theorem getUserRoles_spec (db : DB) (id : Int) (req : UserRequest) :
    (getUserRoles db id).2 = db ∧
    ((∀ x ∈ db.users, (x.ID : Int) ≠ id) →
      (getUserRoles db id).1 = ⟨404, Body.error "User not found"⟩) ∧
    ((∃ x ∈ db.users, (x.ID : Int) = id) →
      ∃ u, (getUser db id).1 = ⟨200, Body.user u⟩ ∧
        (getUserRoles db id).1 = ⟨200, Body.roles (u.Roles.map Role.Name)⟩ ∧
        (u.Roles.map Role.Name).length = u.Roles.length) ∧
    (db.WF → (∃ r ∈ db.roles, r.Name = "student") →
      ∀ u, (registerUser db (some req)).1 = ⟨201, Body.user u⟩ →
        (getUserRoles (registerUser db (some req)).2 (u.ID : Int)).1
          = ⟨200, Body.roles ["student"]⟩) := by
  refine ⟨?_, ?_, ?_, ?_⟩
  · unfold getUserRoles
    split <;> rfl
  · intro hno
    unfold getUserRoles
    rw [firstUser_none db id hno]
  · intro hex
    obtain ⟨row, hrow⟩ := firstUser_of_mem db id hex
    refine ⟨row.toUser (preloadRoles db row.ID), ?_, ?_, by simp⟩
    · unfold getUser
      rw [hrow]
    · unfold getUserRoles
      rw [hrow]
      rfl
  · intro hwf hstudent u hreg
    have hs := roleByName_hit db "student" hstudent
    have hfree : ∀ x ∈ db.users,
        x.GitHubID ≠ req.GitHubID ∧ x.TelegramID ≠ req.TelegramID := by
      by_contra hne
      have hdup : ∃ x ∈ db.users,
          x.GitHubID = req.GitHubID ∨ x.TelegramID = req.TelegramID := by
        by_contra hno
        apply hne
        intro x hx
        exact ⟨fun h => hno ⟨x, hx, Or.inl h⟩, fun h => hno ⟨x, hx, Or.inr h⟩⟩
      rw [registerUser_taken db req hdup] at hreg
      simp at hreg
    rw [registerUser_fresh db req hwf hstudent hfree] at hreg ⊢
    simp only [Response.mk.injEq, Body.user.injEq, true_and] at hreg
    have hread := getUser_fresh db
      ⟨0, req.GitHubID, req.TelegramID, req.FullName, req.GroupName, []⟩
      (roleByName db "student") hwf hs.1
    simp only [User.toRow] at hread
    rw [← hreg]
    unfold getUserRoles
    simp only [hread.1, hread.2, List.map_cons, List.map_nil, hs.2]

theorem getUserRoles_spec_witness :
    (getUserRoles aliceStore 1).1 = ⟨200, Body.roles ["student"]⟩ ∧
    (getUserRoles aliceStore 7).1 = ⟨404, Body.error "User not found"⟩ ∧
    (getUserRoles (registerUser aliceStore (some ⟨222, 5, "Bob", "G1", []⟩)).2 2).1
      = ⟨200, Body.roles ["student"]⟩ :=
  ⟨by decide,
    (getUserRoles_spec aliceStore 7 ⟨222, 5, "Bob", "G1", []⟩).2.1 (by decide),
    (getUserRoles_spec aliceStore 1 ⟨222, 5, "Bob", "G1", []⟩).2.2.2
      (registerUser_wf _ _ (seededStore_wf JoinFK.noAction))
      ⟨⟨1, "student"⟩, by decide, rfl⟩
      ⟨2, 222, 5, "Bob", "G1", [⟨1, "student"⟩]⟩ (by decide)⟩

end ModuleAuthorize
